import Mathlib

/-!
Shallow embedding of the koto runtime's core-library iterator/map algorithms
and string iterators, for checking the natural-language specification.

The embedding models:
 - `KValue` (the script value variant) as `Value`;
 - `KIteratorOutput` as `Output`; a drained iterator is a `List Output`;
 - fallible runtime calls (`run_function`, `run_binary_op`) as Lean
   functions returning `Except Err Value`, passed in as parameters where the
   source treats them as collaborator entry points;
 - the algorithms of `core_lib/iterator.rs`, `core_lib/map.rs` and
   `core/string/iterators.rs` as executable Lean functions.
-/

/-- A runtime error; the source's error type is carried opaquely, so the
model keeps just the rendered message. -/
structure Err where
  msg : String
deriving DecidableEq, Repr

/-- Modelled from the spec: `Error::with_prefix` (used by `SplitWith::next`
as `error.with_prefix("string.split")`) is not under src/; per the spec it
adds a short context marker naming the calling function in front of the
original error, preserving the original. -/
def prependContext (context : String) (e : Err) : Err :=
  { msg := context ++ ": " ++ e.msg }

/-- The script value variant (`KValue`), restricted to the kinds the claims
exercise. Numbers are modelled as integers. Strings are lists of chars so
that the byte/char-indexed string iterators can be stated directly. -/
inductive Value where
  | null
  | bool (b : Bool)
  | num (n : Int)
  | str (s : List Char)
  | list (xs : List Value)
  | tuple (xs : List Value)

/-- Model of `KValue::type_as_string` for the embedded kinds. -/
def Value.typeName : Value → String
  | .null => "Null"
  | .bool _ => "Bool"
  | .num _ => "Number"
  | .str _ => "String"
  | .list _ => "List"
  | .tuple _ => "Tuple"

/-- Whether a value is a `Bool` variant. -/
def Value.isBool : Value → Bool
  | .bool _ => true
  | _ => false

/-- Modelled from the spec: `type_error(expected, value)` (runtime helper,
not under src/) produces a type-mismatch error describing the expected and
actual kinds. -/
def typeMismatchErr (expected : String) (found : Value) : Err :=
  { msg := "Expected " ++ expected ++ ", found " ++ found.typeName }

/-- Stand-in for the source's `unreachable!()` arms (which can never run
because `ValuePair` outputs were collapsed by `collect_pair` first). -/
def unreachableErr : Err := { msg := "unreachable" }

/-- `KIteratorOutput`: one step of iterator output. -/
inductive Output where
  | value (v : Value)
  | pair (a b : Value)
  | error (e : Err)

/-- `collect_pair` from `core_lib/iterator.rs`: collapse a `ValuePair`
output into a two-element `Tuple` value, pass everything else through. -/
def collectPair : Output → Output
  | .pair first second => .value (.tuple [first, second])
  | o => o

/-- An entry of an insertion-ordered map (`ValueMap`), keyed by value. -/
abbrev MapEntry := Value × Value

/-- Key equality used by the value-keyed maps. `ValueKey`'s equality is
collaborator code (not under src/), so the map operations take it as a
parameter; `flatEq` below is the concrete instance used on flat keys. -/
abbrev KeyEq := Value → Value → Bool

/-- Modelled from the spec: value equality for the flat (hashable) key
kinds — null, booleans, numbers and strings compare by value; container
values are not used as keys in any concrete instance here. -/
def flatEq : Value → Value → Bool
  | .null, .null => true
  | .bool a, .bool b => a == b
  | .num a, .num b => a == b
  | .str a, .str b => a == b
  | _, _ => false

/-- Modelled from the spec: `ValueKey::try_from` (not under src/) accepts
only hashable/orderable value kinds as map keys; mutable containers
(lists) are rejected. -/
def flatKeyOk : Value → Bool
  | .list _ => false
  | _ => true

/-- Modelled from the spec: the error produced when a value of an
unhashable kind is used as a map key. -/
def invalidKeyErr (v : Value) : Err :=
  { msg := "Expected a hashable value as a map key, found " ++ v.typeName }

/-- `IndexMap`-style insert: an existing key keeps its position and has its
value replaced, a new key is appended. -/
def mapInsert (keq : KeyEq) (m : List MapEntry) (k v : Value) : List MapEntry :=
  if m.any (fun e => keq e.1 k) then
    m.map (fun e => if keq e.1 k then (e.1, v) else e)
  else
    m ++ [(k, v)]

/-- `IndexMap`-style key membership. -/
def containsKey (keq : KeyEq) (m : List MapEntry) (k : Value) : Bool :=
  m.any (fun e => keq e.1 k)

/-- `IndexMap`-style lookup. -/
def lookupMap (keq : KeyEq) (m : List MapEntry) (k : Value) : Option Value :=
  (m.find? (fun e => keq e.1 k)).map (fun e => e.2)

/-! ## `core_lib/iterator.rs` algorithms

The iterator handed to each algorithm has already been drained into a
`List Output`; reentrant calls into the interpreter (`run_function`,
`run_binary_op`) are parameters of type `Value → Except Err Value` and
`Value → Value → Except Err Value`. -/

/-- `iterator.all`: drains the outputs, calling the predicate on each one;
a `false` result stops with `false`, a non-Bool result is a type error, an
upstream `Error` output or a predicate error is returned as the result. -/
def iterAll (pred : Value → Except Err Value) : List Output → Except Err Value
  | [] => .ok (.bool true)
  | o :: rest =>
    let predicateResult : Except Err Value :=
      match o with
      | .value v => pred v
      | .pair a b => pred (.tuple [a, b])
      | .error e => .error e
    match o with
    | .error e => .error e
    | _ =>
      match predicateResult with
      | .ok (.bool result) =>
        if result then iterAll pred rest else .ok (.bool false)
      | .ok unexpected =>
        .error (typeMismatchErr "a Bool to be returned from the predicate" unexpected)
      | .error e => .error e

/-- `iterator.find`: drains the outputs (pairs collapsed by `collect_pair`),
returning the first value for which the predicate yields `true`; a non-Bool
predicate result is a type error, errors are returned as the result. -/
def iterFind (pred : Value → Except Err Value) : List Output → Except Err Value
  | [] => .ok .null
  | o :: rest =>
    match collectPair o with
    | .value v =>
      match pred v with
      | .ok (.bool result) => if result then .ok v else iterFind pred rest
      | .ok unexpected =>
        .error (typeMismatchErr "a Bool to be returned from the predicate" unexpected)
      | .error e => .error e
    | .error e => .error e
    | .pair _ _ => .error unreachableErr

/-- `iterator.fold`: sequential left fold with the accumulator passed as the
first argument of the folding function (`CallArgs::Separate`); the first
upstream `Error` output or folding-function error is returned immediately. -/
def kotoFold (f : Value → Value → Except Err Value) (acc : Value) :
    List Output → Except Err Value
  | [] => .ok acc
  | o :: rest =>
    match collectPair o with
    | .value v =>
      match f acc v with
      | .ok foldResult => kotoFold f foldResult rest
      | .error e => .error e
    | .error e => .error e
    | .pair _ _ => .error unreachableErr

/-- `fold_with_operator`: the shared helper behind `iterator.sum` and
`iterator.product`, folding the outputs through a binary-operator dispatch
(`run_binary_op`), propagating operator errors and upstream errors. -/
def foldWithOperator (op : Value → Value → Except Err Value) (acc : Value) :
    List Output → Except Err Value
  | [] => .ok acc
  | o :: rest =>
    match collectPair o with
    | .value rhs =>
      match op acc rhs with
      | .ok result => foldWithOperator op result rest
      | .error e => .error e
    | .error e => .error e
    | .pair _ _ => .error unreachableErr

/-- Modelled from the spec: `run_binary_op(BinaryOp::Add, ..)` (execution
engine, not under src/) performs numeric addition on two numbers and fails
with a type mismatch otherwise. -/
def addOp : Value → Value → Except Err Value
  | .num a, .num b => .ok (.num (a + b))
  | a, b => .error (typeMismatchErr ("a Number to add to a " ++ a.typeName) b)

/-- Modelled from the spec: `run_binary_op(BinaryOp::Multiply, ..)`
(execution engine, not under src/) performs numeric multiplication on two
numbers and fails with a type mismatch otherwise. -/
def mulOp : Value → Value → Except Err Value
  | .num a, .num b => .ok (.num (a * b))
  | a, b => .error (typeMismatchErr ("a Number to multiply with a " ++ a.typeName) b)

/-- `iterator.sum`: `fold_with_operator` over `BinaryOp::Add`, starting
from the provided initial value, or from `0` when none is given. -/
def iterSum (initial : Option Value) (outputs : List Output) : Except Err Value :=
  foldWithOperator addOp (match initial with | none => .num 0 | some v => v) outputs

/-- `iterator.product`: `fold_with_operator` over `BinaryOp::Multiply`,
starting from the provided initial value, or from `1` when none is given. -/
def iterProduct (initial : Option Value) (outputs : List Output) : Except Err Value :=
  foldWithOperator mulOp (match initial with | none => .num 1 | some v => v) outputs

/-- `InvertResult` from `core_lib/iterator.rs`: selects between the min
behaviour (`no`) and the max behaviour (`yes`). -/
inductive InvertResult where
  | yes
  | no

/-- `compare_values`: runs `BinaryOp::Less` (the `less` parameter) on the
two values and keeps the lesser one, or the other one when inverted; a
non-Bool comparison result is an error. -/
def compareValues (less : Value → Value → Except Err Value)
    (a b : Value) (invertResult : InvertResult) : Except Err Value :=
  match less a b with
  | .ok (.bool cmp) =>
    match cmp, invertResult with
    | true, .no => .ok a
    | false, .no => .ok b
    | true, .yes => .ok b
    | false, .yes => .ok a
  | .ok other =>
    .error { msg := "Expected Bool from comparison, found " ++ other.typeName }
  | .error e => .error e

/-- `run_iterator_comparison`: the single pass behind `iterator.min` and
`iterator.max` without a key function; folds the outputs through
`compare_values`, starting from no result and returning `Null` for an
empty input. -/
def runIterComparison (less : Value → Value → Except Err Value)
    (invertResult : InvertResult) (acc : Option Value) :
    List Output → Except Err Value
  | [] => .ok (acc.getD .null)
  | o :: rest =>
    match collectPair o with
    | .value v =>
      match acc with
      | none => runIterComparison less invertResult (some v) rest
      | some current =>
        match compareValues less current v invertResult with
        | .ok kept => runIterComparison less invertResult (some kept) rest
        | .error e => .error e
    | .error e => .error e
    | .pair _ _ => .error unreachableErr

/-- `compare_values_with_key`: as `compare_values`, but comparing the
cached key halves of the two (value, key) pairs and keeping whole pairs. -/
def compareValuesWithKey (less : Value → Value → Except Err Value)
    (aAndKey bAndKey : Value × Value) (invertResult : InvertResult) :
    Except Err (Value × Value) :=
  match less aAndKey.2 bAndKey.2 with
  | .ok (.bool cmp) =>
    match cmp, invertResult with
    | true, .no => .ok aAndKey
    | false, .no => .ok bAndKey
    | true, .yes => .ok bAndKey
    | false, .yes => .ok aAndKey
  | .ok other =>
    .error { msg := "Expected Bool from comparison, found " ++ other.typeName }
  | .error e => .error e

/-- `run_iterator_comparison_by_key`: the single pass behind `iterator.min`
and `iterator.max` with a key function; each drained value is paired with
its key-function result and compared through `compare_values_with_key`. -/
def runIterComparisonByKey (less : Value → Value → Except Err Value)
    (keyFn : Value → Except Err Value) (invertResult : InvertResult)
    (acc : Option (Value × Value)) : List Output → Except Err Value
  | [] => .ok ((acc.map (fun p => p.1)).getD .null)
  | o :: rest =>
    match collectPair o with
    | .value v =>
      match keyFn v with
      | .ok key =>
        match acc with
        | none => runIterComparisonByKey less keyFn invertResult (some (v, key)) rest
        | some current =>
          match compareValuesWithKey less current (v, key) invertResult with
          | .ok kept => runIterComparisonByKey less keyFn invertResult (some kept) rest
          | .error e => .error e
      | .error e => .error e
    | .error e => .error e
    | .pair _ _ => .error unreachableErr

/-- `iterator.to_map`'s drain loop: a `ValuePair` output becomes an entry
directly, a two-element `Tuple` value becomes an entry from its elements,
any other value becomes a key with a `Null` value; entries are inserted in
order, upstream errors and unhashable keys fail the call. -/
def toMapGo (keq : KeyEq) (keyOk : Value → Bool) (acc : List MapEntry) :
    List Output → Except Err (List MapEntry)
  | [] => .ok acc
  | o :: rest =>
    match o with
    | .pair k v =>
      if keyOk k then toMapGo keq keyOk (mapInsert keq acc k v) rest
      else .error (invalidKeyErr k)
    | .value (.tuple [k, v]) =>
      if keyOk k then toMapGo keq keyOk (mapInsert keq acc k v) rest
      else .error (invalidKeyErr k)
    | .value v =>
      if keyOk v then toMapGo keq keyOk (mapInsert keq acc v .null) rest
      else .error (invalidKeyErr v)
    | .error e => .error e

/-- `iterator.to_map`: drains the outputs into a fresh map. -/
def iterToMap (keq : KeyEq) (keyOk : Value → Bool) (outputs : List Output) :
    Except Err (List MapEntry) :=
  toMapGo keq keyOk [] outputs

/-! ## `iterator.chunks` / `iterator.windows` / `iterator.step` forwarders

The adaptor constructors (`adaptors::Chunks::new`, `adaptors::Windows::new`,
`adaptors::Step::new`) live in `core_lib/iterator/adaptors.rs`, which is not
under src/; they are modelled from the spec's construction rules
(chunk/window size zero is rejected, a non-positive step size is rejected),
with a representative rejection message. The library functions below are
the `result.add_fn` closures from `core_lib/iterator.rs`. -/

/-- Modelled from the spec: the rejection message of `Chunks::new`. -/
def chunksSizeError : String := "the chunk size must be greater than zero"

/-- Modelled from the spec: the rejection message of `Windows::new`. -/
def windowsSizeError : String := "the window size must be greater than zero"

/-- Modelled from the spec: the rejection message of `Step::new`. -/
def stepSizeError : String := "the step size must be greater than zero"

/-- Modelled from the spec: `adaptors::Chunks::new` rejects a chunk size of
zero and otherwise constructs the adaptor (represented by its size). -/
def chunksNew (size : Nat) : Except String Nat :=
  if size = 0 then .error chunksSizeError else .ok size

/-- Modelled from the spec: `adaptors::Windows::new` rejects a window size
of zero and otherwise constructs the adaptor (represented by its size). -/
def windowsNew (size : Nat) : Except String Nat :=
  if size = 0 then .error windowsSizeError else .ok size

/-- Modelled from the spec: `adaptors::Step::new` rejects a step size that
is not strictly positive and otherwise constructs the adaptor. -/
def stepNew (size : Nat) : Except String Nat :=
  if size = 0 then .error stepSizeError else .ok size

/-- Model of the `KNumber` to `usize` conversion (`n.into()`) used when
passing the size argument to an adaptor constructor. -/
def intoSize (n : Int) : Nat := n.toNat

/-- `iterator.chunks`: forwards to `Chunks::new` and rewraps a
construction failure as `runtime_error!("iterator.chunks: {}", e)`. -/
def iterChunks (n : Int) : Except Err Nat :=
  match chunksNew (intoSize n) with
  | .ok adaptor => .ok adaptor
  | .error e => .error { msg := "iterator.chunks: " ++ e }

/-- `iterator.windows`: forwards to `Windows::new` and rewraps a
construction failure as `runtime_error!("iterator.windows: {}", e)`. -/
def iterWindows (n : Int) : Except Err Nat :=
  match windowsNew (intoSize n) with
  | .ok adaptor => .ok adaptor
  | .error e => .error { msg := "iterator.windows: " ++ e }

/-- The match arm of `iterator.step` that runs once the argument passed the
`*n > 0` guard: forwards to `Step::new` and rewraps a construction failure
as `runtime_error!("iterator.step: {}", e)`. -/
def stepForward (n : Int) : Except Err Nat :=
  match stepNew (intoSize n) with
  | .ok adaptor => .ok adaptor
  | .error e => .error { msg := "iterator.step: " ++ e }

/-- `iterator.step`: a non-positive size argument falls through to the
argument-shape error, a positive one is forwarded to `Step::new`. -/
def iterStep (n : Int) : Except Err Nat :=
  if 0 < n then stepForward n
  else .error { msg := "Expected an iterable and positive step size" }

/-! ## `core_lib/map.rs` -/

/-- The mutable state captured by the comparator closure of `map.sort` with
a key function: the latched first error and the key-result cache. -/
structure SortState where
  error : Option Err
  cache : List MapEntry

/-- `error.get_or_insert(..)`: latch an error only when none is latched. -/
def latchError (st : SortState) (e : Err) : SortState :=
  { st with error := match st.error with | some first => some first | none => some e }

/-- `get_sort_key` from `map.sort`: run the key function on the entry's key
and value (`CallArgs::Separate`), and cache the result under the entry key. -/
def getSortKey (keq : KeyEq) (keyFn : Value → Value → Except Err Value)
    (cache : List MapEntry) (k v : Value) : Except Err (Value × List MapEntry) :=
  match keyFn k v with
  | .ok keyResult => .ok (keyResult, mapInsert keq cache k keyResult)
  | .error e => .error e

/-- The comparator closure passed by `map.sort` (key-function form) to
`sort_by`: when an error is already latched it returns `Equal` immediately;
otherwise it obtains both sort keys (from the cache when possible), latching
the first error and substituting `Null`, and compares them with
`value_sort::compare_values` (the `cmp` parameter), latching a comparison
error as `Equal`. -/
def sortComparator (keq : KeyEq) (keyFn : Value → Value → Except Err Value)
    (cmp : Value → Value → Except Err Ordering) (st : SortState)
    (a b : MapEntry) : Ordering × SortState :=
  if st.error.isSome then (.eq, st)
  else
    let (valueA, st1) :=
      match lookupMap keq st.cache a.1 with
      | some cached => (cached, st)
      | none =>
        match getSortKey keq keyFn st.cache a.1 a.2 with
        | .ok (val, cache2) => (val, { st with cache := cache2 })
        | .error e => (.null, latchError st e)
    let (valueB, st2) :=
      match lookupMap keq st1.cache b.1 with
      | some cached => (cached, st1)
      | none =>
        match getSortKey keq keyFn st1.cache b.1 b.2 with
        | .ok (val, cache2) => (val, { st1 with cache := cache2 })
        | .error e => (.null, latchError st1 e)
    match cmp valueA valueB with
    | .ok ordering => (ordering, st2)
    | .error e => (.eq, latchError st2 e)

/-- One insertion step of the stable sort driving the comparator (the model
of the collaborator `IndexMap::sort_by`), threading the comparator state. -/
def insertSorted (c : SortState → MapEntry → MapEntry → Ordering × SortState)
    (x : MapEntry) : List MapEntry → SortState → List MapEntry × SortState
  | [], st => ([x], st)
  | y :: ys, st =>
    let (ordering, st1) := c st x y
    match ordering with
    | .lt => (x :: y :: ys, st1)
    | _ =>
      let (zs, st2) := insertSorted c x ys st1
      (y :: zs, st2)

/-- The main loop of the stable sort: insert each entry, in map order, into
the sorted prefix, threading the comparator state. -/
def sortEntriesGo (c : SortState → MapEntry → MapEntry → Ordering × SortState) :
    List MapEntry → List MapEntry → SortState → List MapEntry × SortState
  | [], sorted, st => (sorted, st)
  | x :: xs, sorted, st =>
    let (sorted1, st1) := insertSorted c x sorted st
    sortEntriesGo c xs sorted1 st1

/-- Stable insertion sort threading the comparator state (the model of the
collaborator `IndexMap::sort_by`, whose concrete comparison schedule is an
implementation detail of the standard library). -/
def sortEntries (c : SortState → MapEntry → MapEntry → Ordering × SortState)
    (entries : List MapEntry) (st : SortState) : List MapEntry × SortState :=
  sortEntriesGo c entries [] st

/-- `map.sort` with a key function: runs the state-threading sort with the
sticky-error comparator, then returns the latched error in place of the
sorted map when one was raised, and the sorted map otherwise. -/
def mapSortByKey (keq : KeyEq) (keyFn : Value → Value → Except Err Value)
    (cmp : Value → Value → Except Err Ordering) (m : List MapEntry) :
    Except Err (List MapEntry) :=
  let (sorted, st) := sortEntries (sortComparator keq keyFn cmp) m ⟨none, []⟩
  match st.error with
  | some e => .error e
  | none => .ok sorted

/-- `do_map_update` from `core_lib/map.rs`: insert the default under the
key when it is absent, look the value up, run the update function on it,
and on success store and return the new value; on error the error is
returned and the map keeps the state it had when the function was called. -/
def doMapUpdate (keq : KeyEq) (m : List MapEntry) (key default : Value)
    (f : Value → Except Err Value) : Except Err Value × List MapEntry :=
  let m1 := if containsKey keq m key then m else mapInsert keq m key default
  let value := (lookupMap keq m1 key).getD .null
  match f value with
  | .ok newValue => (.ok newValue, mapInsert keq m1 key newValue)
  | .error e => (.error e, m1)

/-! ## `core/string/iterators.rs`

Strings are modelled as `List Char`; the source indexes the string's UTF-8
bytes, the model indexes the character list with the same structure (the
characters the iterators inspect, `\n` and `\r`, are single-byte). -/

/-- Model of `remaining.find('\n')`: the index of the first newline. -/
def findNl : List Char → Option Nat
  | [] => none
  | c :: rest =>
    if c == '\n' then some 0
    else (findNl rest).map (fun i => i + 1)

/-- One `Lines::next` call, written over the remaining input (the source
keeps the whole string plus a `start` offset; the state after a step whose
new start lies past the end is the empty remainder): find the next `\n`,
exclude it — and a directly preceding `\r` — from the yielded line, and
continue after the terminator. Without a further `\n` the whole remainder
is yielded and the iterator is left exhausted. `none` means the iterator
is exhausted. -/
def linesStep (remaining : List Char) : Option (List Char × List Char) :=
  match remaining with
  | [] => none
  | _ =>
    some (match findNl remaining with
      | some i =>
        if 0 < i && remaining.getD (i - 1) ' ' == '\r' then
          (remaining.take (i - 1), remaining.drop (i + 1))
        else
          (remaining.take i, remaining.drop (i + 1))
      | none => (remaining, []))

/-- Fuelled iteration of `linesStep`; `lines` supplies sufficient fuel. -/
def linesGo : Nat → List Char → List (List Char)
  | 0, _ => []
  | fuel + 1, remaining =>
    match linesStep remaining with
    | none => []
    | some (line, rest) => line :: linesGo fuel rest

/-- The full output of the `Lines` iterator on an input string. -/
def lines (s : List Char) : List (List Char) := linesGo (s.length + 1) s

/-- One `SplitWith::next` scan over the remaining grapheme clusters
(segmentation itself is performed by a collaborator crate, so the input
arrives as a list of clusters): find the first cluster for which the
predicate returns `true`, collecting the clusters before it; a non-Bool
predicate result becomes the `string.split` expected-a-Bool error, a
predicate error is reported with the `string.split` context added. -/
def splitWithScan (pred : List Char → Except Err Value) :
    List (List Char) → Except Err (List (List Char) × Option (List (List Char)))
  | [] => .ok ([], none)
  | g :: rest =>
    match pred g with
    | .ok (.bool splitMatch) =>
      if splitMatch then .ok ([], some rest)
      else
        match splitWithScan pred rest with
        | .ok (before, remainder) => .ok (g :: before, remainder)
        | .error e => .error e
    | .ok unexpected =>
      .error { msg := "string.split: Expected a Bool from the match function, found "
                        ++ unexpected.typeName }
    | .error e => .error (prependContext "string.split" e)

/-- One `SplitWith::next` call: on an exhausted input it yields nothing;
otherwise it yields the part before the first matching cluster (consuming
that cluster), the whole remainder when no cluster matches, or an `Error`
output — leaving the remaining input unchanged — when the predicate
misbehaves. -/
def splitWithNext (pred : List Char → Except Err Value)
    (clusters : List (List Char)) : Option (Output × List (List Char)) :=
  match clusters with
  | [] => none
  | _ =>
    match splitWithScan pred clusters with
    | .error e => some (.error e, clusters)
    | .ok (before, some rest) => some (.value (.str before.flatten), rest)
    | .ok (before, none) => some (.value (.str before.flatten), [])

/-! ## Claims -/

/-- C4: `iterator.fold` performs a sequential left fold — starting from the
initial value, the folding function is applied in iteration order with the
accumulator as first argument (a pure fold equals `List.foldl`); the first
`Error` output from upstream and the first error raised by the folding
function abort the call immediately with that error, and no partial
accumulator value is returned on error. -/
theorem c4_fold_sequential_left_abort :
    (∀ (f : Value → Value → Except Err Value) (acc : Value) (e : Err)
        (rest : List Output),
      kotoFold f acc (.error e :: rest) = .error e)
    ∧ (∀ (f : Value → Value → Except Err Value) (acc v : Value)
        (rest : List Output) (e : Err),
      f acc v = .error e → kotoFold f acc (.value v :: rest) = .error e)
    ∧ (∀ (f : Value → Value → Except Err Value) (acc v : Value)
        (rest : List Output) (r : Value),
      f acc v = .ok r → kotoFold f acc (.value v :: rest) = kotoFold f r rest)
    ∧ (∀ (g : Value → Value → Value) (acc : Value) (vs : List Value),
      kotoFold (fun a v => .ok (g a v)) acc (vs.map Output.value)
        = .ok (vs.foldl g acc)) := by
  refine ⟨fun f acc e rest => rfl, ?_, ?_, ?_⟩
  · intro f acc v rest e h
    simp [kotoFold, collectPair, h]
  · intro f acc v rest r h
    simp [kotoFold, collectPair, h]
  · intro g acc vs
    induction vs generalizing acc with
    | nil => rfl
    | cons v vs ih => simp [kotoFold, collectPair, ih]

/-- Witness for C4: the abort conjunct applied at a folding function that
raises on the single element. -/
theorem c4_fold_sequential_left_abort_witness :
    kotoFold (fun _ _ => .error { msg := "boom" }) (.num 0)
      [.value (.num 1)] = .error { msg := "boom" } :=
  c4_fold_sequential_left_abort.2.1 _ (.num 0) (.num 1) [] _ rfl

/-- C8: `iterator.sum` and `iterator.product` are `fold_with_operator`
folds over the add/multiply operator dispatch with identity defaults `0`
and `1` when no initial value is given; concretely, the sum of an empty
iterable is `0`, the sum of `[1, 2, 3]` is `6`, and the product of
`[2, 3, 4]` is `24`. -/
theorem c8_sum_product_fold_with_operator :
    (∀ outputs, iterSum none outputs = foldWithOperator addOp (.num 0) outputs)
    ∧ (∀ outputs, iterProduct none outputs = foldWithOperator mulOp (.num 1) outputs)
    ∧ iterSum none [] = .ok (.num 0)
    ∧ iterSum none [.value (.num 1), .value (.num 2), .value (.num 3)] = .ok (.num 6)
    ∧ iterProduct none [.value (.num 2), .value (.num 3), .value (.num 4)]
        = .ok (.num 24) :=
  ⟨fun _ => rfl, fun _ => rfl, rfl, rfl, rfl⟩

/-- Modelled from the spec: `run_binary_op(BinaryOp::Less, ..)` (execution
engine, not under src/) compares two numbers by value. -/
def numLess : Value → Value → Except Err Value
  | .num a, .num b => .ok (.bool (decide (a < b)))
  | a, _ => .error (typeMismatchErr "a Number to compare" a)

/-- C1 counterexample: `iterator.min` with a key function that maps both
elements to the same key (so the two elements compare equal) returns the
later-seen element `2`, not the earlier-seen element `1` the claim
requires; symmetrically `iterator.max` returns the earlier-seen element. -/
theorem c1_min_max_tie_counterexample :
    runIterComparisonByKey numLess (fun _ => .ok (.num 0)) .no none
        [.value (.num 1), .value (.num 2)] = .ok (.num 2)
    ∧ (Except.ok (Value.num 2) : Except Err Value) ≠ .ok (.num 1)
    ∧ runIterComparisonByKey numLess (fun _ => .ok (.num 0)) .yes none
        [.value (.num 1), .value (.num 2)] = .ok (.num 1)
    ∧ (Except.ok (Value.num 1) : Except Err Value) ≠ .ok (.num 2) := by
  refine ⟨rfl, ?_, rfl, ?_⟩ <;> simp

/-- C1 (amended): for `iterator.min` and `iterator.max` (with or without a
key function), comparison uses strict less-than only — a `true` result
keeps the left value for min and the right for max, a `false` result the
other way around — so when two elements compare equal (strict less-than is
`false` both ways), min keeps the later-seen element as its result and max
keeps the earlier-seen element as its result. -/
theorem c1_min_max_strict_less_tie_amended :
    (∀ (less : Value → Value → Except Err Value) (a b : Value),
      less a b = .ok (.bool true) →
        compareValues less a b .no = .ok a ∧ compareValues less a b .yes = .ok b)
    ∧ (∀ (less : Value → Value → Except Err Value) (a b : Value),
      less a b = .ok (.bool false) →
        compareValues less a b .no = .ok b ∧ compareValues less a b .yes = .ok a)
    ∧ (∀ (less : Value → Value → Except Err Value) (a b : Value),
      less a b = .ok (.bool false) → less b a = .ok (.bool false) →
        runIterComparison less .no none [.value a, .value b] = .ok b
        ∧ runIterComparison less .yes none [.value a, .value b] = .ok a)
    ∧ (∀ (less : Value → Value → Except Err Value)
        (keyFn : Value → Except Err Value) (a b ka kb : Value),
      keyFn a = .ok ka → keyFn b = .ok kb →
      less ka kb = .ok (.bool false) → less kb ka = .ok (.bool false) →
        runIterComparisonByKey less keyFn .no none [.value a, .value b] = .ok b
        ∧ runIterComparisonByKey less keyFn .yes none [.value a, .value b] = .ok a) := by
  refine ⟨?_, ?_, ?_, ?_⟩
  · intro less a b h
    constructor <;> simp [compareValues, h]
  · intro less a b h
    constructor <;> simp [compareValues, h]
  · intro less a b h _
    constructor <;> simp [runIterComparison, collectPair, compareValues, h]
  · intro less keyFn a b ka kb ha hb h _
    constructor <;>
      simp [runIterComparisonByKey, collectPair, compareValuesWithKey, ha, hb, h]

/-- Witness for C1 (amended): two elements with equal keys under a constant
key function; min returns the later-seen `2`, max the earlier-seen `1`. -/
theorem c1_min_max_strict_less_tie_amended_witness :
    runIterComparisonByKey numLess (fun _ => .ok (.num 0)) .no none
        [.value (.num 1), .value (.num 2)] = .ok (.num 2)
    ∧ runIterComparisonByKey numLess (fun _ => .ok (.num 0)) .yes none
        [.value (.num 1), .value (.num 2)] = .ok (.num 1) := by
  have h := c1_min_max_strict_less_tie_amended.2.2.2 numLess
    (fun _ => .ok (.num 0)) (.num 1) (.num 2) (.num 0) (.num 0) rfl rfl rfl rfl
  exact h

/-- C3 counterexample: an error raised by the predicate of `iterator.all`
is returned exactly as raised — no "in function X" context naming the
calling function is added, contrary to the claim. -/
theorem c3_error_context_counterexample :
    iterAll (fun _ => .error { msg := "boom" }) [.value (.num 1)]
        = .error { msg := "boom" }
    ∧ ({ msg := "boom" } : Err) ≠ prependContext "iterator.all" { msg := "boom" } :=
  ⟨rfl, by decide⟩

/-- C3 (amended): a non-Bool value returned where a Bool is required fails
with a type-mismatch error rather than being coerced (in `iterator.all`,
`iterator.find` and the string `SplitWith` iterator alike); an error the
callable raises is propagated by `iterator.all` and `iterator.find`
completely unchanged, with no context added, while `SplitWith` propagates
it with a short `string.split` context named after the calling function. -/
theorem c3_callable_errors_amended :
    (∀ (pred : Value → Except Err Value) (v : Value) (rest : List Output)
        (w : Value), pred v = .ok w → w.isBool = false →
      iterAll pred (.value v :: rest)
        = .error (typeMismatchErr "a Bool to be returned from the predicate" w))
    ∧ (∀ (pred : Value → Except Err Value) (v : Value) (rest : List Output)
        (e : Err), pred v = .error e →
      iterAll pred (.value v :: rest) = .error e)
    ∧ (∀ (pred : Value → Except Err Value) (v : Value) (rest : List Output)
        (w : Value), pred v = .ok w → w.isBool = false →
      iterFind pred (.value v :: rest)
        = .error (typeMismatchErr "a Bool to be returned from the predicate" w))
    ∧ (∀ (pred : Value → Except Err Value) (v : Value) (rest : List Output)
        (e : Err), pred v = .error e →
      iterFind pred (.value v :: rest) = .error e)
    ∧ (∀ (pred : List Char → Except Err Value) (g : List Char)
        (rest : List (List Char)) (w : Value), pred g = .ok w → w.isBool = false →
      splitWithNext pred (g :: rest)
        = some (.error { msg :=
            "string.split: Expected a Bool from the match function, found "
              ++ w.typeName }, g :: rest))
    ∧ (∀ (pred : List Char → Except Err Value) (g : List Char)
        (rest : List (List Char)) (e : Err), pred g = .error e →
      splitWithNext pred (g :: rest)
        = some (.error (prependContext "string.split" e), g :: rest)) := by
  refine ⟨?_, ?_, ?_, ?_, ?_, ?_⟩
  · intro pred v rest w h hb
    cases w <;> simp_all [iterAll, Value.isBool]
  · intro pred v rest e h
    simp [iterAll, h]
  · intro pred v rest w h hb
    cases w <;> simp_all [iterFind, collectPair, Value.isBool]
  · intro pred v rest e h
    simp [iterFind, collectPair, h]
  · intro pred g rest w h hb
    cases w <;> simp_all [splitWithNext, splitWithScan, Value.isBool]
  · intro pred g rest e h
    simp [splitWithNext, splitWithScan, h]

/-- Witness for C3 (amended): a predicate error inside `SplitWith` is
reported as an `Error` output carrying the `string.split` context. -/
theorem c3_callable_errors_amended_witness :
    splitWithNext (fun _ => .error { msg := "boom" }) [['a']]
      = some (.error (prependContext "string.split" { msg := "boom" }), [['a']]) :=
  c3_callable_errors_amended.2.2.2.2.2 (fun _ => .error { msg := "boom" })
    ['a'] [] { msg := "boom" } rfl

/-- Scanning for a split point skips over clusters the predicate rejects:
they are collected in front of whatever the scan of the remainder finds. -/
theorem splitWithScan_false_append (pred : List Char → Except Err Value)
    (pre : List (List Char)) (h : ∀ g ∈ pre, pred g = .ok (.bool false))
    (tail : List (List Char)) :
    splitWithScan pred (pre ++ tail)
      = match splitWithScan pred tail with
        | .ok (before, remainder) => .ok (pre ++ before, remainder)
        | .error e => .error e := by
  induction pre with
  | nil =>
    cases h' : splitWithScan pred tail with
    | ok p => cases p; simp [h']
    | error e => simp [h']
  | cons g pre ih =>
    have hg : pred g = .ok (.bool false) := h g (by simp)
    have ih' := ih (fun x hx => h x (by simp [hx]))
    cases h' : splitWithScan pred tail with
    | ok p =>
      obtain ⟨before, remainder⟩ := p
      have ih2 : splitWithScan pred (pre ++ tail) = .ok (pre ++ before, remainder) := by
        rw [ih', h']
      simp [splitWithScan, hg, ih2]
    | error e =>
      have ih2 : splitWithScan pred (pre ++ tail) = .error e := by
        rw [ih', h']
      simp [splitWithScan, hg, ih2]

/-- C6: the `SplitWith` string iterator divides its input at the first
grapheme cluster for which the predicate returns `true`, yielding the part
before that cluster and consuming the cluster (the remainder continues
after it); when no cluster matches, the whole remainder is yielded; when
the predicate returns a non-Bool value or raises an error, the step yields
an `Error` output — with the remaining input left intact, so the iteration
is not fatally torn down — instead of a plain value. -/
theorem c6_splitwith_divides_and_error_outputs :
    (∀ (pred : List Char → Except Err Value) (pre : List (List Char))
        (g : List Char) (post : List (List Char)),
      (∀ x ∈ pre, pred x = .ok (.bool false)) → pred g = .ok (.bool true) →
      splitWithNext pred (pre ++ g :: post)
        = some (.value (.str pre.flatten), post))
    ∧ (∀ (pred : List Char → Except Err Value) (gs : List (List Char)),
      (∀ x ∈ gs, pred x = .ok (.bool false)) → gs ≠ [] →
      splitWithNext pred gs = some (.value (.str gs.flatten), []))
    ∧ (∀ (pred : List Char → Except Err Value) (pre : List (List Char))
        (g : List Char) (post : List (List Char)) (w : Value),
      (∀ x ∈ pre, pred x = .ok (.bool false)) → pred g = .ok w →
      w.isBool = false →
      splitWithNext pred (pre ++ g :: post)
        = some (.error { msg :=
            "string.split: Expected a Bool from the match function, found "
              ++ w.typeName }, pre ++ g :: post))
    ∧ (∀ (pred : List Char → Except Err Value) (pre : List (List Char))
        (g : List Char) (post : List (List Char)) (e : Err),
      (∀ x ∈ pre, pred x = .ok (.bool false)) → pred g = .error e →
      splitWithNext pred (pre ++ g :: post)
        = some (.error (prependContext "string.split" e), pre ++ g :: post)) := by
  refine ⟨?_, ?_, ?_, ?_⟩
  · intro pred pre g post hpre hg
    have hs := splitWithScan_false_append pred pre hpre (g :: post)
    rw [show splitWithScan pred (g :: post) = .ok ([], some post) by
      simp [splitWithScan, hg]] at hs
    cases pre <;> simp_all [splitWithNext]
  · intro pred gs hgs hne
    have hs := splitWithScan_false_append pred gs hgs []
    simp [splitWithScan] at hs
    cases gs with
    | nil => exact absurd rfl hne
    | cons g rest => simp_all [splitWithNext]
  · intro pred pre g post w hpre hg hw
    have hscan : splitWithScan pred (g :: post) = .error { msg :=
        "string.split: Expected a Bool from the match function, found "
          ++ w.typeName } := by
      cases w <;> simp_all [splitWithScan, Value.isBool]
    have hs := splitWithScan_false_append pred pre hpre (g :: post)
    rw [hscan] at hs
    cases pre <;> simp_all [splitWithNext]
  · intro pred pre g post e hpre hg
    have hscan : splitWithScan pred (g :: post)
        = .error (prependContext "string.split" e) := by
      simp [splitWithScan, hg]
    have hs := splitWithScan_false_append pred pre hpre (g :: post)
    rw [hscan] at hs
    cases pre <;> simp_all [splitWithNext]

/-- Witness for C6: splitting `"ab,cd"` (as grapheme clusters) at the first
comma cluster yields `"ab"` and consumes the comma, leaving `"cd"`. -/
theorem c6_splitwith_divides_and_error_outputs_witness :
    splitWithNext (fun g => .ok (.bool (g == [','])))
        [['a'], ['b'], [','], ['c'], ['d']]
      = some (.value (.str ['a', 'b']), [['c'], ['d']]) :=
  c6_splitwith_divides_and_error_outputs.1 (fun g => .ok (.bool (g == [','])))
    [['a'], ['b']] [','] [['c'], ['d']]
    (by intro x hx; simp at hx; rcases hx with rfl | rfl <;> rfl) rfl

/-- A newline-free list has no newline to find. -/
theorem findNl_eq_none (l : List Char) (h : '\n' ∉ l) : findNl l = none := by
  induction l with
  | nil => rfl
  | cons c rest ih =>
    simp only [List.mem_cons, not_or] at h
    obtain ⟨h1, h2⟩ := h
    have hc : (c == '\n') = false := by
      simp only [beq_eq_false_iff_ne, ne_eq]
      exact fun e => h1 e.symm
    simp [findNl, hc, ih h2]

/-- The first newline after a newline-free block sits right after it. -/
theorem findNl_append (l r : List Char) (h : '\n' ∉ l) :
    findNl (l ++ '\n' :: r) = some l.length := by
  induction l with
  | nil => simp [findNl]
  | cons c rest ih =>
    simp only [List.mem_cons, not_or] at h
    obtain ⟨h1, h2⟩ := h
    have hc : (c == '\n') = false := by
      simp only [beq_eq_false_iff_ne, ne_eq]
      exact fun e => h1 e.symm
    simp [findNl, hc, ih h2]

/-- Each `Lines` step strictly shrinks the remaining input. -/
theorem linesStep_shrink {rem line rest : List Char}
    (h : linesStep rem = some (line, rest)) : rest.length < rem.length := by
  cases rem with
  | nil => simp [linesStep] at h
  | cons c cs =>
    simp only [linesStep] at h
    cases hf : findNl (c :: cs) with
    | none =>
      rw [hf] at h
      simp only [Option.some.injEq, Prod.mk.injEq] at h
      obtain ⟨-, h2⟩ := h
      simp [← h2]
    | some i =>
      rw [hf] at h
      simp only [Option.some.injEq] at h
      have hrest : rest = (c :: cs).drop (i + 1) := by
        by_cases hc : (0 < i && (c :: cs).getD (i - 1) ' ' == '\r') = true
        · rw [if_pos hc] at h
          exact (Prod.mk.injEq _ _ _ _ ▸ h).symm.1.symm
        · rw [if_neg hc] at h
          exact (Prod.mk.injEq _ _ _ _ ▸ h).symm.1.symm
      subst hrest
      simp only [List.drop_succ_cons, List.length_drop, List.length_cons]
      omega

/-- `linesGo` does not depend on the exact fuel once it exceeds the length
of the remaining input. -/
theorem linesGo_fuel (f1 : Nat) : ∀ (f2 : Nat) (rem : List Char),
    rem.length < f1 → rem.length < f2 → linesGo f1 rem = linesGo f2 rem := by
  induction f1 with
  | zero => intro f2 rem h1 _; exact absurd h1 (Nat.not_lt_zero _)
  | succ f1 ih =>
    intro f2 rem h1 h2
    cases f2 with
    | zero => exact absurd h2 (Nat.not_lt_zero _)
    | succ f2 =>
      simp only [linesGo]
      cases hs : linesStep rem with
      | none => rfl
      | some p =>
        obtain ⟨line, rest⟩ := p
        have hlt := linesStep_shrink hs
        show line :: linesGo f1 rest = line :: linesGo f2 rest
        rw [ih f2 rest (by omega) (by omega)]

/-- On a non-empty remainder, a `Lines` step always yields a line. -/
theorem linesStep_of_ne_nil (x : List Char) (h : x ≠ []) :
    linesStep x = some (match findNl x with
      | some i =>
        if 0 < i && x.getD (i - 1) ' ' == '\r' then
          (x.take (i - 1), x.drop (i + 1))
        else
          (x.take i, x.drop (i + 1))
      | none => (x, [])) := by
  cases x with
  | nil => exact absurd rfl h
  | cons c cs => rfl

/-- A `Lines` step on a newline-free line (not ending in a carriage return)
followed by `\n` yields the line and continues after the terminator. -/
theorem linesStep_append_nl (l rest : List Char) (h : '\n' ∉ l)
    (h2 : l.getLast? ≠ some '\r') :
    linesStep (l ++ '\n' :: rest) = some (l, rest) := by
  rw [linesStep_of_ne_nil _ (by simp), findNl_append l rest h]
  have hcond : (decide (0 < l.length)
      && (l ++ '\n' :: rest).getD (l.length - 1) ' ' == '\r') = false := by
    cases l with
    | nil => rfl
    | cons c cs =>
      have hlt : cs.length < (c :: cs : List Char).length := by simp
      have hx : ((c :: cs) ++ '\n' :: rest)[cs.length]? = (c :: cs)[cs.length]? :=
        List.getElem?_append_left hlt
      have hlast : (c :: cs : List Char).getLast? = (c :: cs)[cs.length]? := by
        rw [List.getLast?_eq_getElem?]
        simp
      have hgd : ((c :: cs) ++ '\n' :: rest).getD ((c :: cs : List Char).length - 1) ' '
          = ((c :: cs)[cs.length]?).getD ' ' := by
        rw [List.getD_eq_getElem?_getD]
        simp only [List.length_cons, Nat.add_sub_cancel]
        rw [hx]
      rw [hgd]
      obtain ⟨x, hx2⟩ : ∃ x, (c :: cs)[cs.length]? = some x :=
        ⟨(c :: cs)[cs.length], List.getElem?_eq_getElem hlt⟩
      have hxr : (x == '\r') = false := by
        simp only [beq_eq_false_iff_ne, ne_eq]
        intro hxeq
        exact h2 (by rw [hlast, hx2, hxeq])
      rw [hx2]
      simp [hxr]
  have hdrop : (l ++ '\n' :: rest).drop (l.length + 1) = rest := by
    rw [show l ++ '\n' :: rest = (l ++ ['\n']) ++ rest by simp,
      show l.length + 1 = (l ++ ['\n']).length by simp]
    exact List.drop_left _ _
  show some (if (decide (0 < l.length)
        && (l ++ '\n' :: rest).getD (l.length - 1) ' ' == '\r') = true
      then ((l ++ '\n' :: rest).take (l.length - 1), (l ++ '\n' :: rest).drop (l.length + 1))
      else ((l ++ '\n' :: rest).take l.length, (l ++ '\n' :: rest).drop (l.length + 1)))
    = some (l, rest)
  rw [if_neg (by rw [hcond]; simp)]
  rw [List.take_left, hdrop]

/-- A `Lines` step on a newline-free line followed by `\r\n` yields the
line, excluding both terminator bytes, and continues after them. -/
theorem linesStep_append_crnl (l rest : List Char) (h : '\n' ∉ l) :
    linesStep (l ++ '\r' :: '\n' :: rest) = some (l, rest) := by
  rw [linesStep_of_ne_nil _ (by simp)]
  have hf : findNl (l ++ '\r' :: '\n' :: rest) = some (l.length + 1) := by
    rw [show l ++ '\r' :: '\n' :: rest = (l ++ ['\r']) ++ '\n' :: rest by simp,
      findNl_append (l ++ ['\r']) rest (by simp [h])]
    simp
  rw [hf]
  have hidx : (l ++ '\r' :: '\n' :: rest)[l.length]? = some '\r' := by
    rw [show l ++ '\r' :: '\n' :: rest = (l ++ ['\r']) ++ '\n' :: rest by simp]
    rw [List.getElem?_append_left (by simp)]
    exact List.getElem?_concat_length _ _
  have hcond : (decide (0 < l.length + 1)
      && (l ++ '\r' :: '\n' :: rest).getD (l.length + 1 - 1) ' ' == '\r') = true := by
    rw [List.getD_eq_getElem?_getD]
    simp only [Nat.add_sub_cancel]
    rw [hidx]
    simp
  have hdrop : (l ++ '\r' :: '\n' :: rest).drop (l.length + 1 + 1) = rest := by
    rw [show l ++ '\r' :: '\n' :: rest = (l ++ ['\r', '\n']) ++ rest by simp,
      show l.length + 1 + 1 = (l ++ ['\r', '\n']).length by simp]
    exact List.drop_left _ _
  have htake : (l ++ '\r' :: '\n' :: rest).take (l.length + 1 - 1) = l := by
    simp only [Nat.add_sub_cancel]
    exact List.take_left _ _
  show some (if (decide (0 < l.length + 1)
        && (l ++ '\r' :: '\n' :: rest).getD (l.length + 1 - 1) ' ' == '\r') = true
      then ((l ++ '\r' :: '\n' :: rest).take (l.length + 1 - 1),
            (l ++ '\r' :: '\n' :: rest).drop (l.length + 1 + 1))
      else ((l ++ '\r' :: '\n' :: rest).take (l.length + 1),
            (l ++ '\r' :: '\n' :: rest).drop (l.length + 1 + 1)))
    = some (l, rest)
  rw [if_pos hcond]
  rw [htake, hdrop]

/-- A `Lines` step on a non-empty newline-free remainder yields the whole
remainder and exhausts the iterator. -/
theorem linesStep_no_nl (l : List Char) (h : '\n' ∉ l) (hne : l ≠ []) :
    linesStep l = some (l, []) := by
  rw [linesStep_of_ne_nil _ hne, findNl_eq_none l h]

/-- Exhausted input yields no lines regardless of fuel. -/
theorem linesGo_nil (fuel : Nat) : linesGo fuel [] = [] := by
  cases fuel <;> rfl

/-- C5: the `Lines` string iterator splits its input on `\n` or `\r\n`,
excluding the terminator from each yielded line; an empty line yields an
empty string, a newline-free tail is yielded whole, and nothing is yielded
for the empty remainder after a final terminator (`lines (l ++ ['\n'])`
ends after `l`); in particular `Lines` on `"a\r\nb\n\nc"` yields exactly
`["a", "b", "", "c"]`. -/
theorem c5_lines_splitting :
    lines ("a\r\nb\n\nc".toList) = [['a'], ['b'], [], ['c']]
    ∧ (∀ (l rest : List Char), '\n' ∉ l → l.getLast? ≠ some '\r' →
      lines (l ++ '\n' :: rest) = l :: lines rest)
    ∧ (∀ (l rest : List Char), '\n' ∉ l →
      lines (l ++ '\r' :: '\n' :: rest) = l :: lines rest)
    ∧ lines [] = []
    ∧ (∀ l : List Char, '\n' ∉ l → l ≠ [] → lines l = [l]) := by
  refine ⟨by decide, ?_, ?_, rfl, ?_⟩
  · intro l rest h h2
    show linesGo ((l ++ '\n' :: rest).length + 1) (l ++ '\n' :: rest) = l :: lines rest
    rw [show linesGo ((l ++ '\n' :: rest).length + 1) (l ++ '\n' :: rest)
        = match linesStep (l ++ '\n' :: rest) with
          | none => []
          | some (line, r) => line :: linesGo (l ++ '\n' :: rest).length r from rfl]
    rw [linesStep_append_nl l rest h h2]
    show l :: linesGo (l ++ '\n' :: rest).length rest = l :: lines rest
    unfold lines
    rw [linesGo_fuel _ (rest.length + 1) rest
      (by simp only [List.length_append, List.length_cons]; omega) (by omega)]
  · intro l rest h
    show linesGo ((l ++ '\r' :: '\n' :: rest).length + 1) (l ++ '\r' :: '\n' :: rest)
      = l :: lines rest
    rw [show linesGo ((l ++ '\r' :: '\n' :: rest).length + 1) (l ++ '\r' :: '\n' :: rest)
        = match linesStep (l ++ '\r' :: '\n' :: rest) with
          | none => []
          | some (line, r) => line :: linesGo (l ++ '\r' :: '\n' :: rest).length r from rfl]
    rw [linesStep_append_crnl l rest h]
    show l :: linesGo (l ++ '\r' :: '\n' :: rest).length rest = l :: lines rest
    unfold lines
    rw [linesGo_fuel _ (rest.length + 1) rest
      (by simp only [List.length_append, List.length_cons]; omega) (by omega)]
  · intro l h hne
    show linesGo (l.length + 1) l = [l]
    rw [show linesGo (l.length + 1) l
        = match linesStep l with
          | none => []
          | some (line, r) => line :: linesGo l.length r from rfl]
    rw [linesStep_no_nl l h hne]
    show l :: linesGo l.length [] = [l]
    rw [linesGo_nil]

/-- Witness for C5: the clause splitting on a bare `\n` applied to
`"a" ++ "\n" ++ "b"`. -/
theorem c5_lines_splitting_witness :
    lines (['a'] ++ '\n' :: ['b']) = ['a'] :: lines ['b'] :=
  c5_lines_splitting.2.1 ['a'] ['b'] (by decide) (by decide)

/-- Whether a value is a two-element tuple (the shape `to_map` destructures
into a key/value entry). -/
def isTuple2 : Value → Bool
  | .tuple [_, _] => true
  | _ => false

/-- C7: while draining, `iterator.to_map` converts a `ValuePair` output
directly into a key/value entry, converts a `Value` output that is a
two-element tuple into an entry from its two elements, and inserts every
other drained value as a key with `Null` as the value; e.g. draining a
pair, a two-element tuple and a plain number produces exactly those three
entries in order. -/
theorem c7_to_map_output_conversion :
    (∀ (keq : KeyEq) (keyOk : Value → Bool) (acc : List MapEntry) (k v : Value)
        (rest : List Output), keyOk k = true →
      toMapGo keq keyOk acc (.pair k v :: rest)
        = toMapGo keq keyOk (mapInsert keq acc k v) rest)
    ∧ (∀ (keq : KeyEq) (keyOk : Value → Bool) (acc : List MapEntry) (k v : Value)
        (rest : List Output), keyOk k = true →
      toMapGo keq keyOk acc (.value (.tuple [k, v]) :: rest)
        = toMapGo keq keyOk (mapInsert keq acc k v) rest)
    ∧ (∀ (keq : KeyEq) (keyOk : Value → Bool) (acc : List MapEntry) (v : Value)
        (rest : List Output), keyOk v = true → isTuple2 v = false →
      toMapGo keq keyOk acc (.value v :: rest)
        = toMapGo keq keyOk (mapInsert keq acc v .null) rest)
    ∧ iterToMap flatEq flatKeyOk
        [.pair (.num 1) (.str ['a']), .value (.tuple [.num 2, .num 3]),
          .value (.num 4)]
        = .ok [(.num 1, .str ['a']), (.num 2, .num 3), (.num 4, .null)] := by
  refine ⟨?_, ?_, ?_, rfl⟩
  · intro keq keyOk acc k v rest hok
    simp [toMapGo, hok]
  · intro keq keyOk acc k v rest hok
    simp [toMapGo, hok]
  · intro keq keyOk acc v rest hok hnot
    cases v with
    | null => simp [toMapGo, hok]
    | bool b => simp [toMapGo, hok]
    | num n => simp [toMapGo, hok]
    | str s => simp [toMapGo, hok]
    | list xs => simp [toMapGo, hok]
    | tuple xs =>
      rcases xs with _ | ⟨x, _ | ⟨y, _ | ⟨z, zs⟩⟩⟩
      · simp [toMapGo, hok]
      · simp [toMapGo, hok]
      · simp [isTuple2] at hnot
      · simp [toMapGo, hok]

/-- Witness for C7: a `ValuePair` output becomes a direct entry. -/
theorem c7_to_map_output_conversion_witness :
    toMapGo flatEq flatKeyOk [] [.pair (.num 1) (.num 2)]
      = toMapGo flatEq flatKeyOk (mapInsert flatEq [] (.num 1) (.num 2)) [] :=
  c7_to_map_output_conversion.1 flatEq flatKeyOk [] (.num 1) (.num 2) [] rfl

/-- C9: `iterator.chunks`, `iterator.windows` and `iterator.step` forward
to the corresponding adaptor constructor — a successful construction is
returned as is — and when the constructor rejects the size argument, each
returns a library-level error whose message carries the calling function's
name in front of the constructor's message (e.g. `iterator.chunks: ...`);
for `iterator.step` the rejection arm sits behind the positive-size guard
of the argument match. -/
theorem c9_size_adaptor_forwarders :
    (∀ (n : Int) (e : String), chunksNew (intoSize n) = .error e →
      iterChunks n = .error { msg := "iterator.chunks: " ++ e })
    ∧ (∀ (n : Int) (s : Nat), chunksNew (intoSize n) = .ok s → iterChunks n = .ok s)
    ∧ (∀ (n : Int) (e : String), windowsNew (intoSize n) = .error e →
      iterWindows n = .error { msg := "iterator.windows: " ++ e })
    ∧ (∀ (n : Int) (s : Nat), windowsNew (intoSize n) = .ok s → iterWindows n = .ok s)
    ∧ (∀ (n : Int) (e : String), stepNew (intoSize n) = .error e →
      stepForward n = .error { msg := "iterator.step: " ++ e })
    ∧ (∀ (n : Int) (s : Nat), 0 < n → stepNew (intoSize n) = .ok s →
      iterStep n = .ok s)
    ∧ iterChunks 0 = .error { msg := "iterator.chunks: " ++ chunksSizeError }
    ∧ iterWindows 0 = .error { msg := "iterator.windows: " ++ windowsSizeError } := by
  refine ⟨?_, ?_, ?_, ?_, ?_, ?_, rfl, rfl⟩
  · intro n e h; simp [iterChunks, h]
  · intro n s h; simp [iterChunks, h]
  · intro n e h; simp [iterWindows, h]
  · intro n e h; simp [iterWindows, h]
  · intro n e h; simp [stepForward, h]
  · intro n s hn h; simp [iterStep, hn, stepForward, h]

/-- Witness for C9: a chunk size of zero is rejected by the constructor and
surfaces with the `iterator.chunks` name in front. -/
theorem c9_size_adaptor_forwarders_witness :
    iterChunks 0 = .error { msg := "iterator.chunks: " ++ chunksSizeError } :=
  c9_size_adaptor_forwarders.1 0 chunksSizeError rfl

/-- Looking a key up right after appending its entry to a map that did not
contain it finds exactly that entry. -/
theorem find_append_self (keq : KeyEq) (m : List MapEntry) (key dflt : Value)
    (hnc : m.any (fun e => keq e.1 key) = false) (hrefl : keq key key = true) :
    (m ++ [(key, dflt)]).find? (fun e => keq e.1 key) = some (key, dflt) := by
  induction m with
  | nil => simp [List.find?, hrefl]
  | cons a as ih =>
    simp only [List.any_cons, Bool.or_eq_false_iff] at hnc
    obtain ⟨h1, h2⟩ := hnc
    simp [List.find?, h1, ih h2]

/-- C10: `map.update` on a key absent from the map inserts the default
value under the key before the transform function runs (the transform
receives the default), so when the transform raises an error the call
returns that error while the map is left containing the default under the
key — the insertion is not rolled back. -/
theorem c10_update_absent_key_keeps_default :
    ∀ (keq : KeyEq) (m : List MapEntry) (key dflt : Value)
      (f : Value → Except Err Value) (e : Err),
      keq key key = true →
      containsKey keq m key = false →
      f dflt = .error e →
      doMapUpdate keq m key dflt f = (.error e, m ++ [(key, dflt)]) := by
  intro keq m key dflt f e hrefl hnc hf
  have hanyf : m.any (fun x => keq x.1 key) = false := hnc
  have hins : mapInsert keq m key dflt = m ++ [(key, dflt)] := by
    unfold mapInsert
    rw [if_neg (by rw [hanyf]; simp)]
  have hlook : lookupMap keq (m ++ [(key, dflt)]) key = some dflt := by
    unfold lookupMap
    rw [find_append_self keq m key dflt hanyf hrefl]
    rfl
  simp only [doMapUpdate, hnc, Bool.false_eq_true, if_false, hins, hlook,
    Option.getD_some, hf]

/-- Witness for C10: updating an empty map at key `1` with default `0` and
a transform that always raises leaves `(1, 0)` in the map and returns the
error. -/
theorem c10_update_absent_key_keeps_default_witness :
    doMapUpdate flatEq [] (.num 1) (.num 0) (fun _ => .error { msg := "boom" })
      = (.error { msg := "boom" }, [(.num 1, .num 0)]) :=
  c10_update_absent_key_keeps_default flatEq [] (.num 1) (.num 0)
    (fun _ => .error { msg := "boom" }) { msg := "boom" } rfl rfl rfl

/-- Modelled from the spec: `value_sort::compare_values` (not under src/)
orders two numbers by value and fails on incomparable kinds. -/
def cmpNum : Value → Value → Except Err Ordering
  | .num a, .num b => .ok (compare a b)
  | a, b => .error { msg := "Unable to compare " ++ a.typeName ++ " and " ++ b.typeName }

/-- C2: `map.sort` with a key function latches the first error raised by
the key function or by value comparison; every comparator invocation made
after an error is latched returns `Equal` immediately, with the state —
including the key cache — untouched and without calling back into the key
function or the comparison (the result is the same for every key function
and comparison); and once the sort completes, the latched error is
returned as the call's result instead of the sorted map. Concretely,
sorting a three-entry map by a key function that raises on the third
entry's key returns exactly that first error (even though the comparison
of the substituted `Null` also fails afterwards), not a map. -/
theorem c2_map_sort_sticky_error :
    (∀ (keq : KeyEq) (keyFn : Value → Value → Except Err Value)
        (cmp : Value → Value → Except Err Ordering) (st : SortState)
        (a b : MapEntry) (e : Err), st.error = some e →
      sortComparator keq keyFn cmp st a b = (.eq, st))
    ∧ (∀ (keq : KeyEq) (keyFn : Value → Value → Except Err Value)
        (cmp : Value → Value → Except Err Ordering) (m : List MapEntry) (e : Err),
      (sortEntries (sortComparator keq keyFn cmp) m ⟨none, []⟩).2.error = some e →
      mapSortByKey keq keyFn cmp m = .error e)
    ∧ mapSortByKey flatEq
        (fun k v => if flatEq k (.str ['c']) then .error { msg := "boom" } else .ok v)
        cmpNum
        [(.str ['b'], .num 1), (.str ['a'], .num 2), (.str ['c'], .num 3)]
        = .error { msg := "boom" } := by
  refine ⟨?_, ?_, rfl⟩
  · intro keq keyFn cmp st a b e h
    simp [sortComparator, h]
  · intro keq keyFn cmp m e h
    unfold mapSortByKey
    rcases hp : sortEntries (sortComparator keq keyFn cmp) m ⟨none, []⟩
      with ⟨sorted, st⟩
    rw [hp] at h
    simp only at h
    simp [h]

/-- Witness for C2: once an error is latched, a comparator invocation
returns `Equal` and leaves the state untouched. -/
theorem c2_map_sort_sticky_error_witness :
    sortComparator flatEq (fun _ v => .ok v) cmpNum
        ⟨some { msg := "first" }, []⟩ (.num 1, .num 2) (.num 3, .num 4)
      = (.eq, ⟨some { msg := "first" }, []⟩) :=
  c2_map_sort_sticky_error.1 flatEq (fun _ v => .ok v) cmpNum
    ⟨some { msg := "first" }, []⟩ (.num 1, .num 2) (.num 3, .num 4)
    { msg := "first" } rfl
